import Mathlib

/-!
Shallow embedding of the RadioFluxRSS repository (src/RadioFluxRSS.py and
src/m3u_to_rss.py) and verification of the frozen claims about it.

Strings are modelled as `List Char`; Python character classes for the regular
expressions involved (`\d`, `\s`, `str.lower`, `str.strip`) are modelled over
ASCII, which covers every string the program and the claims manipulate.
-/

/-- ASCII decimal digit, modelling the regex class for digits. -/
def isDigitCh (c : Char) : Bool := 48 ≤ c.toNat && c.toNat ≤ 57

/-- ASCII whitespace, modelling Python `str.strip` and the regex space class. -/
def isSpaceCh (c : Char) : Bool :=
  c == ' ' || c == '\t' || c == '\n' || c == '\r' || c == '\x0b' || c == '\x0c'

/-- ASCII lower-casing of one character, modelling Python `str.lower`. -/
def lowerCh (c : Char) : Char :=
  if 65 ≤ c.toNat && c.toNat ≤ 90 then Char.ofNat (c.toNat + 32) else c

/-- Lower-case a whole string. -/
def toLowerL (s : List Char) : List Char := s.map lowerCh

/-- Test `listStartsWith s pat`: `pat` is an initial segment of `s`. -/
def listStartsWith : List Char → List Char → Bool
  | _, [] => true
  | [], _ :: _ => false
  | c :: cs, d :: ds => c == d && listStartsWith cs ds

/-- Test `listHasSub s pat`: `pat` occurs contiguously inside `s`,
modelling Python's `pat in s`. -/
def listHasSub : List Char → List Char → Bool
  | [], pat => pat.isEmpty
  | c :: cs, pat => listStartsWith (c :: cs) pat || listHasSub cs pat

/-- Python `str.strip()` over ASCII whitespace. -/
def stripList (s : List Char) : List Char :=
  ((s.dropWhile isSpaceCh).reverse.dropWhile isSpaceCh).reverse

/-- Decimal value of a digit run, modelling Python `int` on the regex capture. -/
def digitsVal (d : List Char) : Nat := d.foldl (fun a c => 10 * a + (c.toNat - 48)) 0

/-- Decimal rendering of a natural number. -/
def natChars (n : Nat) : List Char := (Nat.repr n).data

/-!  ## FluxRadiosScraper.parse_stream_quality  -/

/-- One anchored attempt of the regex `(\d+)\s*k?bps` (IGNORECASE) at the start
of `s`.  The regex engine's greedy matching with backtracking degenerates to
this deterministic scan: nothing after `\d+` can consume a digit, nothing after
`\s*` can consume a space, and after a consumed `k` the literal `bps` cannot
start with `k`. -/
def matchBpsAt (s : List Char) : Option Nat :=
  let run := s.takeWhile isDigitCh
  if run.isEmpty then none
  else
    let rest := (s.dropWhile isDigitCh).dropWhile isSpaceCh
    let rest2 := match rest with
      | c :: cs => if lowerCh c == 'k' then cs else c :: cs
      | [] => []
    if listStartsWith (toLowerL rest2) "bps".data then some (digitsVal run) else none

/-- Search of `(\d+)\s*k?bps` (IGNORECASE) as `re.search` performs it: the
leftmost attempt that matches. -/
def searchBps : List Char → Option Nat
  | [] => none
  | c :: cs =>
    match matchBpsAt (c :: cs) with
    | some n => some n
    | none => searchBps cs

/-- Embeds `FluxRadiosScraper.parse_stream_quality` (src/RadioFluxRSS.py lines 53-66). -/
def parse_stream_quality (s : List Char) : Nat :=
  match searchBps s with
  | some n => n
  | none =>
    if listHasSub (toLowerL s) "mp3".data then 128
    else if listHasSub (toLowerL s) "aac".data then 96
    else 64

/-!  ## FluxRadiosScraper.select_best_stream  -/

/-- One candidate stream URL, as built by `extract_radio_info`:
keys `url`, `description` (surrounding text), `bitrate`. -/
structure StreamOption where
  url : List Char
  description : List Char
  bitrate : Nat
deriving DecidableEq

/-- The code's format test for the MP3 bonus: `'.mp3' in url.lower() or
'mp3' in description.lower()` (src/RadioFluxRSS.py line 82). -/
def mp3Cond (st : StreamOption) : Bool :=
  listHasSub (toLowerL st.url) ".mp3".data || listHasSub (toLowerL st.description) "mp3".data

/-- The code's format test for the AAC bonus (src/RadioFluxRSS.py line 84). -/
def aacCond (st : StreamOption) : Bool :=
  listHasSub (toLowerL st.url) ".aac".data || listHasSub (toLowerL st.description) "aac".data

/-- Embeds the inner `stream_score` (src/RadioFluxRSS.py lines 77-89). -/
def stream_score (st : StreamOption) : Nat :=
  (if mp3Cond st then 1000 else if aacCond st then 500 else 100) + st.bitrate

/-- MP3 tier per the code's scoring. -/
def mp3Tier (st : StreamOption) : Bool := mp3Cond st

/-- AAC tier per the code's scoring: AAC condition without the MP3 one. -/
def aacTier (st : StreamOption) : Bool := !mp3Cond st && aacCond st

/-- Neither MP3 nor AAC condition holds. -/
def otherTier (st : StreamOption) : Bool := !mp3Cond st && !aacCond st

/-- Embeds `FluxRadiosScraper.select_best_stream` (src/RadioFluxRSS.py lines 68-93).
Python `max(streams, key=stream_score)` keeps the first of equal maxima. -/
def select_best_stream : List StreamOption → Option StreamOption
  | [] => none
  | [s] => some s
  | s :: ss =>
    some (ss.foldl (fun best y => if stream_score best < stream_score y then y else best) s)

/-- The score formula as the spec's sentence words it: bonus 1000 when the URL
*or* the descriptive text mentions "mp3" (anywhere, no leading dot), 500 for
"aac", else 100.  Compare `stream_score`, which requires ".mp3"/".aac" in the
URL. -/
def claimScore (st : StreamOption) : Nat :=
  (if listHasSub (toLowerL st.url) "mp3".data || listHasSub (toLowerL st.description) "mp3".data then 1000
   else if listHasSub (toLowerL st.url) "aac".data || listHasSub (toLowerL st.description) "aac".data then 500
   else 100) + st.bitrate

/-!  ## FluxRadiosScraper.extract_radio_links  -/

/-- The detail-page marker substring (src/RadioFluxRSS.py line 45). -/
def markerSub : List Char := "flux-url-".data

/-- The expected-host substring (src/RadioFluxRSS.py line 45). -/
def hostSub : List Char := "fluxradios.blogspot.com".data

/-- The code's keep test: both substrings occur in the raw href. -/
def href_qualifies (href : List Char) : Bool :=
  listHasSub href markerSub && listHasSub href hostSub

/-- Embeds `FluxRadiosScraper.extract_radio_links` (src/RadioFluxRSS.py lines
34-51).  `resolve` abstracts `urljoin(self.base_url, href)` from the standard
library. -/
def extract_radio_links (resolve : List Char → List Char) (hrefs : List (List Char)) :
    List (List Char) :=
  hrefs.foldl (fun acc href =>
    if href_qualifies href then
      if resolve href ∈ acc then acc else acc ++ [resolve href]
    else acc) []

/-- Models `urllib.parse.urljoin(base, href)` for an href that is already an
absolute URL: the absolute href is returned unchanged. -/
def urljoinAbsolute (href : List Char) : List Char := href

/-- Spec-side deduplication keeping the first occurrence of each element. -/
def dedupFO : List (List Char) → List (List Char)
  | [] => []
  | x :: xs => x :: dedupFO (xs.filter (fun y => y != x))
termination_by l => l.length
decreasing_by
  simp only [List.length_cons]
  exact Nat.lt_succ_of_le (List.length_filter_le _ _)

/-- Drop everything up to and including the first occurrence of `pat`. -/
def afterSub (pat : List Char) : List Char → List Char
  | [] => []
  | c :: cs =>
    if listStartsWith (c :: cs) pat then (c :: cs).drop pat.length else afterSub pat cs

/-- Models `urllib.parse.urlparse(url).netloc` for an absolute http(s) URL:
the text after `://` up to the next `/`, `?` or `#`. -/
def hostOf (url : List Char) : List Char :=
  if listHasSub url ("://".data) then
    (afterSub ("://".data) url).takeWhile (fun c => c != '/' && c != '?' && c != '#')
  else []

/-!  ## FluxRadiosScraper: radio records and persistence  -/

/-- The `radio_info` dict built by `extract_radio_info`, with the optional keys
`stream_url` / `stream_quality` that are added only when a stream is selected. -/
structure RadioInfo where
  page_url : List Char
  name : List Char
  title : List Char
  description : List Char
  logo_url : List Char
  streams : List StreamOption
  stream_url : Option (List Char)
  stream_quality : Option (List Char)
deriving DecidableEq

/-- Embeds the tail of `FluxRadiosScraper.extract_radio_info`
(src/RadioFluxRSS.py lines 180-194): attach the selected stream; the full
`streams` list (with each option's surrounding text) is kept on the record
when a stream is selected, else it stays the empty list from initialization. -/
def buildRadioInfo (page_url name title description logo_url : List Char)
    (streams : List StreamOption) : RadioInfo :=
  match select_best_stream streams with
  | some b =>
    ⟨page_url, name, title, description, logo_url, streams,
     some b.url, some (natChars b.bitrate ++ "kbps".data)⟩
  | none => ⟨page_url, name, title, description, logo_url, [], none, none⟩

/-- Embeds `FluxRadiosScraper.scrape_all_radios` (src/RadioFluxRSS.py lines
196-213): `results` holds the outcome of `extract_radio_info` per link (`none`
for a fetch failure); a record is retained only when `radio_info` is present
and `radio_info.get('stream_url')` is truthy. -/
def scrape_all_radios (results : List (Option RadioInfo)) : List RadioInfo :=
  results.foldl (fun acc o =>
    match o with
    | some r => if (r.stream_url.getD []).isEmpty then acc else acc ++ [r]
    | none => acc) []

/-- JSON string escaping as `json.dump` performs it, modelled for the backslash
and double-quote escapes. -/
def jsonEscape (s : List Char) : List Char :=
  s.foldr (fun c acc =>
    if c == '"' then '\\' :: '"' :: acc
    else if c == '\\' then '\\' :: '\\' :: acc
    else c :: acc) []

/-- A JSON string literal. -/
def jsonStr (s : List Char) : List Char := '"' :: (jsonEscape s ++ ['"'])

/-- Join with a separator. -/
def joinSep (sep : List Char) : List (List Char) → List Char
  | [] => []
  | [x] => x
  | x :: y :: rest => x ++ sep ++ joinSep sep (y :: rest)

/-- Serialization of one stream dict, keys in insertion order. -/
def jsonOfStream (st : StreamOption) : List Char :=
  "\x7b\"url\": ".data ++ jsonStr st.url ++
  ", \"description\": ".data ++ jsonStr st.description ++
  ", \"bitrate\": ".data ++ natChars st.bitrate ++ "\x7d".data

/-- Serialization of one `radio_info` dict, keys in insertion order; the
optional keys appear only when present. -/
def jsonOfRadio (r : RadioInfo) : List Char :=
  "\x7b\"page_url\": ".data ++ jsonStr r.page_url ++
  ", \"name\": ".data ++ jsonStr r.name ++
  ", \"title\": ".data ++ jsonStr r.title ++
  ", \"description\": ".data ++ jsonStr r.description ++
  ", \"logo_url\": ".data ++ jsonStr r.logo_url ++
  ", \"streams\": [".data ++ joinSep (", ".data) (r.streams.map jsonOfStream) ++ "]".data ++
  (match r.stream_url with
   | some u => ", \"stream_url\": ".data ++ jsonStr u
   | none => []) ++
  (match r.stream_quality with
   | some q => ", \"stream_quality\": ".data ++ jsonStr q
   | none => []) ++
  "\x7d".data

/-- Embeds `FluxRadiosScraper.save_to_json` (src/RadioFluxRSS.py lines 215-219):
the text written to the JSON file, up to the pretty-printing whitespace that
`indent=2` inserts. -/
def save_to_json (data : List RadioInfo) : List Char :=
  "[".data ++ joinSep (", ".data) (data.map jsonOfRadio) ++ "]".data

/-- One CSV row as `save_to_csv` builds it (src/RadioFluxRSS.py lines 226-234):
`radio.get(field, '')` over the seven fixed field names. -/
def csv_row (r : RadioInfo) : List (List Char) :=
  [r.name, r.title, r.description, r.page_url, r.logo_url,
   r.stream_url.getD [], r.stream_quality.getD []]

/-- Embeds `FluxRadiosScraper.save_to_csv` as the rows written: header then
one row per record. -/
def save_to_csv (data : List RadioInfo) : List (List (List Char)) :=
  ["name".data, "title".data, "description".data, "page_url".data, "logo_url".data,
   "stream_url".data, "stream_quality".data] :: data.map csv_row

/-- Replace the `streams` field of a record. -/
def setStreams (r : RadioInfo) (s : List StreamOption) : RadioInfo :=
  ⟨r.page_url, r.name, r.title, r.description, r.logo_url, s, r.stream_url, r.stream_quality⟩

/-!  ## M3UToRSS.get_station_logo  -/

/-- The mapping `self.country_flags` (src/m3u_to_rss.py lines 17-23), in
insertion order. -/
def country_flags : List (List Char × List Char) :=
  [("FR".data, "https://flagcdn.com/w320/fr.png".data),
   ("BE".data, "https://flagcdn.com/w320/be.png".data),
   ("CH".data, "https://flagcdn.com/w320/ch.png".data),
   ("LU".data, "https://flagcdn.com/w320/lu.png".data),
   ("LY".data, "https://flagcdn.com/w320/lu.png".data)]

/-- Case-sensitive lookup in `country_flags`. -/
def flagLookup (c : List Char) : Option (List Char) :=
  (country_flags.find? (fun p => p.1 == c)).map (fun p => p.2)

/-- The fixed `self.default_logo` URL (src/m3u_to_rss.py line 14). -/
def default_logo : List Char :=
  "https://raw.githubusercontent.com/AntennaPod/AntennaPod/master/app/src/main/res/mipmap-xxxhdpi/ic_launcher.png".data

/-- The name-scan step: first country code (in dict order) whose `"| <code>"`
marker occurs in the display name (src/m3u_to_rss.py lines 38-42). -/
def nameScanLogo (name : List Char) : Option (List Char) :=
  (country_flags.find? (fun p => listHasSub name ('|' :: ' ' :: p.1))).map (fun p => p.2)

/-- Embeds `M3UToRSS.get_station_logo` (src/m3u_to_rss.py lines 25-45).
`none` models a Python `None` argument. -/
def get_station_logo (tvg_logo tvg_country : Option (List Char)) (name : List Char) :
    List Char :=
  if (stripList (tvg_logo.getD [])).isEmpty = false then tvg_logo.getD []
  else
    match (match tvg_country with
           | some c => if c.isEmpty then none else flagLookup (stripList c)
           | none => none) with
    | some f => f
    | none =>
      match (if name.isEmpty then none else nameScanLogo name) with
      | some f => f
      | none => default_logo

/-- The fallback chain with the name-scan step disabled, for comparison with
`get_station_logo` on an empty display name. -/
def logoNoNameScan (tvg_logo tvg_country : Option (List Char)) : List Char :=
  if (stripList (tvg_logo.getD [])).isEmpty = false then tvg_logo.getD []
  else
    match (match tvg_country with
           | some c => if c.isEmpty then none else flagLookup (stripList c)
           | none => none) with
    | some f => f
    | none => default_logo

/-!  ## M3UToRSS.parse_m3u  -/

/-- One parsed station record, field order as the dict built at
src/m3u_to_rss.py lines 77-83. -/
structure Station where
  name : List Char
  tvg_name : List Char
  logo : List Char
  group : List Char
  url : List Char
deriving DecidableEq

/-- One anchored attempt of `re.search(key ++ '="([^"]*)"', attrs)`: the
greedy `[^"]*` capture runs to the first closing quote, which must exist. -/
def attrCaptureAt (key s : List Char) : Option (List Char) :=
  if listStartsWith s (key ++ ['=', '"']) then
    let rest := s.drop (key ++ ['=', '"']).length
    if rest.any (fun c => c == '"') then some (rest.takeWhile (fun c => c != '"'))
    else none
  else none

/-- Search for a quoted attribute as `re.search` performs it: the leftmost
position that matches. -/
def attrSearch (key : List Char) : List Char → Option (List Char)
  | [] => none
  | c :: cs =>
    match attrCaptureAt key (c :: cs) with
    | some v => some v
    | none => attrSearch key cs

/-- The metadata-line marker. -/
def extinfMarker : List Char := "#EXTINF:".data

/-- Python `line.split(',', 1)` when a comma is present: text before the first
comma and text after it. -/
def splitFirstComma (l : List Char) : Option (List Char × List Char) :=
  if l.any (fun c => c == ',') then
    some (l.takeWhile (fun c => c != ','), (l.dropWhile (fun c => c != ',')).drop 1)
  else none

/-- Build the accumulator dict from a metadata line's attribute segment and
name segment (src/m3u_to_rss.py lines 59-83). -/
def mkStation (attrs nameSeg : List Char) : Station :=
  ⟨stripList nameSeg,
   (attrSearch ("tvg-name".data) attrs).getD [],
   get_station_logo (attrSearch ("tvg-logo".data) attrs) (attrSearch ("tvg-country".data) attrs)
     (stripList nameSeg),
   (attrSearch ("group-title".data) attrs).getD [],
   []⟩

/-- Set the URL of an accumulated station. -/
def setUrl (st : Station) (u : List Char) : Station :=
  ⟨st.name, st.tvg_name, st.logo, st.group, u⟩

/-- A stripped line that finalizes an open accumulator: non-empty and not a
comment. -/
def isUrlStripped (line : List Char) : Bool :=
  match line with
  | [] => false
  | c :: _ => c != '#'

/-- One loop iteration of `M3UToRSS.parse_m3u` (src/m3u_to_rss.py lines 54-88)
over the state (open accumulator, emitted stations). -/
def m3uStep (acc : Option Station × List Station) (rawLine : List Char) :
    Option Station × List Station :=
  let line := stripList rawLine
  if listStartsWith line extinfMarker then
    match splitFirstComma line with
    | some p => (some (mkStation p.1 p.2), acc.2)
    | none => acc
  else if isUrlStripped line then
    match acc.1 with
    | some cur => (none, acc.2 ++ [setUrl cur line])
    | none => acc
  else acc

/-- Embeds `M3UToRSS.parse_m3u`: the ordered station records produced from the
playlist's lines. -/
def parse_m3u (lines : List (List Char)) : List Station :=
  (lines.foldl m3uStep (none, [])).2

/-- A metadata line: begins with the marker and carries the comma that
separates the attribute segment from the name segment. -/
def isMetaLine (l : List Char) : Bool :=
  listStartsWith (stripList l) extinfMarker && (stripList l).any (fun c => c == ',')

/-- A URL line: stripped text is non-empty and not a comment. -/
def isUrlLine (l : List Char) : Bool := isUrlStripped (stripList l)

/-- A line that is neither a metadata line nor a URL line. -/
def isOtherLine (l : List Char) : Bool := !isMetaLine l && !isUrlLine l

/-- Predicate `pairAtOpen b lines j`: position `j` holds a URL line that closes a
metadata/URL pair — either some earlier position `i` holds a metadata line
with only ignored lines at the positions strictly between `i` and `j` (the
positions `(List.range j).drop (i+1)`), or (when `b` is set, meaning a
metadata line was already pending before `lines`) every position before `j`
holds an ignored line. -/
def pairAtOpen (b : Bool) (lines : List (List Char)) (j : Nat) : Bool :=
  isUrlLine (lines.getD j []) &&
  ((List.range j).any (fun i =>
      isMetaLine (lines.getD i []) &&
      ((List.range j).drop (i + 1)).all (fun k => isOtherLine (lines.getD k []))) ||
   (b && (List.range j).all (fun k => isOtherLine (lines.getD k []))))

/-- Position `j` holds the URL line of a metadata-line/URL-line pair appearing
in that order with no intervening non-ignored line: some earlier position `i`
holds a metadata line and every position strictly between `i` and `j` holds an
ignored line. -/
def pairAt (lines : List (List Char)) (j : Nat) : Bool :=
  isUrlLine (lines.getD j []) &&
  (List.range j).any (fun i =>
    isMetaLine (lines.getD i []) &&
    ((List.range j).drop (i + 1)).all (fun k => isOtherLine (lines.getD k [])))

/-- The number of metadata-line/URL-line pairs of a playlist, counted from the
claim's description. -/
def specPairCount (lines : List (List Char)) : Nat :=
  (List.range lines.length).countP (pairAt lines)

/-- Generalization of `specPairCount` to a pending open accumulator. -/
def specPairCountOpen (b : Bool) (lines : List (List Char)) : Nat :=
  (List.range lines.length).countP (pairAtOpen b lines)

/-- Operational pair count: fold over the lines tracking whether a metadata
line is pending. -/
def auxCount : Bool → List (List Char) → Nat
  | _, [] => 0
  | b, l :: ls =>
    (if isUrlLine l && b then 1 else 0) +
      auxCount (isMetaLine l || (b && isOtherLine l)) ls

/-- An optional `k` between the digits and `bps`, in either case. -/
def isKOpt (k : List Char) : Prop := k = [] ∨ ∃ kc : Char, k = [kc] ∧ lowerCh kc = 'k'

/-- A case variant of the literal `bps`. -/
def isBpsCI (b : List Char) : Prop := toLowerL b = "bps".data

/-- Predicate `bpsAt s n`: the text `s` contains a numeric value of `n`, followed by
optional whitespace, an optional `k`, and `bps` in any case — the bitrate
pattern of the claim. -/
def bpsAt (s : List Char) (n : Nat) : Prop :=
  ∃ pre d ws k b post,
    s = pre ++ d ++ ws ++ k ++ b ++ post ∧ d ≠ [] ∧
    (∀ c ∈ d, isDigitCh c = true) ∧ (∀ c ∈ ws, isSpaceCh c = true) ∧
    isKOpt k ∧ isBpsCI b ∧ digitsVal d = n

/-!  ## M3UToRSS.create_single_rss_feed  -/

/-- The fixed channel header of the generated feed. -/
structure Channel where
  title : List Char
  description : List Char
  link : List Char
  language : List Char
  imageUrl : List Char
  imageTitle : List Char
  imageLink : List Char
deriving DecidableEq

/-- One `<item>` element of the generated feed, in document order of its
children. -/
structure FeedItem where
  title : List Char
  description : List Char
  link : List Char
  guid : List Char
  pubDate : List Char
  duration : List Char
  explicitFlag : List Char
  imageHref : List Char
  enclosureUrl : List Char
  enclosureType : List Char
  enclosureLength : List Char
deriving DecidableEq

/-- The generated feed document. -/
structure Feed where
  channel : Channel
  items : List FeedItem
deriving DecidableEq

/-- One feed entry for a station, with the timestamp string produced by the
`datetime.now().strftime(...)` call made while building this entry
(src/m3u_to_rss.py lines 121-153). -/
def mkFeedItem (st : Station) (timeStr : List Char) : FeedItem :=
  ⟨st.name, "Live stream for ".data ++ st.name, st.url, st.url, timeStr,
   "00:00:00".data, "no".data, st.logo, st.url, "audio/mpeg".data, "0".data⟩

/-- Embeds `M3UToRSS.create_single_rss_feed` (src/m3u_to_rss.py lines 90-155).
`now i` is the formatted timestamp returned by the `datetime.now()` call made
during the `i`-th loop iteration — the code calls `datetime.now()` inside the
per-station loop, once per entry. -/
def create_single_rss_feed (now : Nat → List Char) (stations : List Station) : Feed :=
  ⟨⟨"French Radio Stations".data,
    "Collection of French radio stations for continuous streaming".data,
    "https://jbesclapez.github.io/RadioFluxRSS/".data,
    "fr".data,
    (flagLookup ("FR".data)).getD [],
    "French Radio Stations".data,
    "https://jbesclapez.github.io/RadioFluxRSS/".data⟩,
   stations.enum.map (fun p => mkFeedItem p.2 (now p.1))⟩

/-!  # General lemmas  -/

theorem listStartsWith_iff (p : List Char) :
    ∀ l : List Char, listStartsWith l p = true ↔ ∃ q, l = p ++ q := by
  induction p with
  | nil => intro l; simp [listStartsWith]
  | cons d ds ih =>
    intro l
    cases l with
    | nil => simp [listStartsWith]
    | cons c cs =>
      simp only [listStartsWith, Bool.and_eq_true, beq_iff_eq, ih cs]
      constructor
      · rintro ⟨rfl, q, rfl⟩
        exact ⟨q, rfl⟩
      · rintro ⟨q, h⟩
        injection h with h1 h2
        exact ⟨h1, q, h2⟩

theorem listHasSub_iff (p : List Char) :
    ∀ l : List Char, listHasSub l p = true ↔ ∃ a b, l = a ++ p ++ b := by
  intro l
  induction l with
  | nil =>
    simp only [listHasSub, List.isEmpty_iff]
    constructor
    · rintro rfl
      exact ⟨[], [], rfl⟩
    · rintro ⟨a, b, h⟩
      rcases List.append_eq_nil.1 h.symm with ⟨h1, h2⟩
      exact (List.append_eq_nil.1 h1).2
  | cons c cs ih =>
    simp only [listHasSub, Bool.or_eq_true, listStartsWith_iff, ih]
    constructor
    · rintro (⟨q, hq⟩ | ⟨a, b, hab⟩)
      · exact ⟨[], q, by simpa using hq⟩
      · exact ⟨c :: a, b, by simp [hab]⟩
    · rintro ⟨a, b, hab⟩
      cases a with
      | nil => exact Or.inl ⟨b, by simpa using hab⟩
      | cons a0 a' =>
        injection hab with h1 h2
        exact Or.inr ⟨a', b, h2⟩

theorem mem_takeWhile_pred (p : Char → Bool) :
    ∀ l : List Char, ∀ c ∈ l.takeWhile p, p c = true := by
  intro l
  induction l with
  | nil => simp
  | cons x xs ih =>
    intro c hc
    by_cases hx : p x = true
    · rw [List.takeWhile_cons_of_pos hx] at hc
      rcases List.mem_cons.1 hc with rfl | hc'
      · exact hx
      · exact ih c hc'
    · rw [List.takeWhile_cons_of_neg hx] at hc
      simp at hc

theorem takeWhile_app_eq (p : Char → Bool) :
    ∀ l1 l2 : List Char, (∀ c ∈ l1, p c = true) →
      (∀ c, l2.head? = some c → p c = false) →
      (l1 ++ l2).takeWhile p = l1 ∧ (l1 ++ l2).dropWhile p = l2 := by
  intro l1
  induction l1 with
  | nil =>
    intro l2 _ h2
    cases l2 with
    | nil => simp
    | cons c cs =>
      have hc := h2 c rfl
      simp [List.takeWhile_cons, List.dropWhile_cons, hc]
  | cons x xs ih =>
    intro l2 h1 h2
    have hx := h1 x (by simp)
    have hr := ih l2 (fun c hc => h1 c (by simp [hc])) h2
    simp [List.takeWhile_cons, List.dropWhile_cons, hx, hr.1, hr.2]

theorem map_split {f : Char → Char} (p : List Char) :
    ∀ t q : List Char, t.map f = p ++ q →
      ∃ a b, t = a ++ b ∧ a.map f = p ∧ b.map f = q := by
  induction p with
  | nil =>
    intro t q h
    exact ⟨[], t, rfl, rfl, by simpa using h⟩
  | cons x p ih =>
    intro t q h
    cases t with
    | nil => simp at h
    | cons c cs =>
      simp only [List.map_cons, List.cons_append] at h
      injection h with h1 h2
      obtain ⟨a, b, rfl, ha, hb⟩ := ih cs q h2
      exact ⟨c :: a, b, rfl, by simp [h1, ha], hb⟩

theorem lowerCh_of_space (c : Char) (h : isSpaceCh c = true) : lowerCh c = c := by
  simp only [isSpaceCh, Bool.or_eq_true, beq_iff_eq] at h
  rcases h with ((((rfl | rfl) | rfl) | rfl) | rfl) | rfl <;> decide

theorem lowerCh_of_digit (c : Char) (h : isDigitCh c = true) : lowerCh c = c := by
  simp only [isDigitCh, Bool.and_eq_true, decide_eq_true_eq] at h
  unfold lowerCh
  have hcond : (65 ≤ c.toNat && c.toNat ≤ 90) = false := by
    simp only [Bool.and_eq_false_iff, decide_eq_false_iff_not]
    left
    omega
  rw [hcond]
  simp

theorem space_not_digit (c : Char) (h : isSpaceCh c = true) : isDigitCh c = false := by
  simp only [isSpaceCh, Bool.or_eq_true, beq_iff_eq] at h
  rcases h with ((((rfl | rfl) | rfl) | rfl) | rfl) | rfl <;> decide

theorem lower_k_not_digit (c : Char) (h : lowerCh c = 'k') : isDigitCh c = false := by
  cases hd : isDigitCh c
  · rfl
  · rw [lowerCh_of_digit c hd] at h
    subst h
    exact absurd hd (by decide)

theorem lower_k_not_space (c : Char) (h : lowerCh c = 'k') : isSpaceCh c = false := by
  cases hs : isSpaceCh c
  · rfl
  · rw [lowerCh_of_space c hs] at h
    subst h
    exact absurd hs (by decide)

theorem lower_b_not_digit (c : Char) (h : lowerCh c = 'b') : isDigitCh c = false := by
  cases hd : isDigitCh c
  · rfl
  · rw [lowerCh_of_digit c hd] at h
    subst h
    exact absurd hd (by decide)

theorem lower_b_not_space (c : Char) (h : lowerCh c = 'b') : isSpaceCh c = false := by
  cases hs : isSpaceCh c
  · rfl
  · rw [lowerCh_of_space c hs] at h
    subst h
    exact absurd hs (by decide)

/-!  # Best-stream selection (C1, C2)  -/

theorem foldBest_spec :
    ∀ (ss : List StreamOption) (s : StreamOption),
      (ss.foldl (fun best y => if stream_score best < stream_score y then y else best) s) ∈ s :: ss ∧
      (∀ o ∈ s :: ss, stream_score o ≤
        stream_score (ss.foldl (fun best y => if stream_score best < stream_score y then y else best) s)) ∧
      ∃ pre post,
        s :: ss = pre ++ (ss.foldl (fun best y => if stream_score best < stream_score y then y else best) s) :: post ∧
        ∀ o ∈ pre, stream_score o <
          stream_score (ss.foldl (fun best y => if stream_score best < stream_score y then y else best) s) := by
  intro ss
  induction ss with
  | nil =>
    intro s
    refine ⟨by simp, by simp, [], [], by simp, by simp⟩
  | cons y t ih =>
    intro s
    simp only [List.foldl_cons]
    by_cases h : stream_score s < stream_score y
    · rw [if_pos h]
      obtain ⟨hmem, hmax, pre, post, hdec, hlt⟩ := ih y
      refine ⟨List.mem_cons_of_mem s hmem, ?_, s :: pre, post, by rw [List.cons_append, ← hdec], ?_⟩
      · intro o ho
        rcases List.mem_cons.1 ho with rfl | ho'
        · exact le_of_lt (lt_of_lt_of_le h (hmax y (List.mem_cons_self y t)))
        · exact hmax o ho'
      · intro o ho
        rcases List.mem_cons.1 ho with rfl | ho'
        · exact lt_of_lt_of_le h (hmax y (List.mem_cons_self y t))
        · exact hlt o ho'
    · rw [if_neg h]
      push_neg at h
      obtain ⟨hmem, hmax, pre, post, hdec, hlt⟩ := ih s
      refine ⟨?_, ?_, ?_⟩
      · rcases List.mem_cons.1 hmem with h' | h'
        · rw [h']; exact List.mem_cons_self _ _
        · exact List.mem_cons_of_mem s (List.mem_cons_of_mem y h')
      · intro o ho
        rcases List.mem_cons.1 ho with rfl | ho'
        · exact hmax o (List.mem_cons_self o t)
        · rcases List.mem_cons.1 ho' with rfl | ho''
          · exact le_trans h (hmax s (List.mem_cons_self s t))
          · exact hmax o (List.mem_cons_of_mem s ho'')
      · cases pre with
        | nil =>
          have hB : s = t.foldl (fun best y => if stream_score best < stream_score y then y else best) s := by
            simpa using congrArg (fun l => l.head?) hdec
          exact ⟨[], y :: t, by rw [List.nil_append, ← hB], by simp⟩
        | cons a pre' =>
          rw [List.cons_append] at hdec
          injection hdec with ha ht
          refine ⟨s :: y :: pre', post, ?_, ?_⟩
          · conv_lhs => rw [ht]
            simp
          · intro o ho
            have hs_lt : stream_score s <
                stream_score (t.foldl (fun best y => if stream_score best < stream_score y then y else best) s) := by
              have := hlt a (List.mem_cons_self a pre')
              rw [← ha] at this
              exact this
            rcases List.mem_cons.1 ho with rfl | ho'
            · exact hs_lt
            · rcases List.mem_cons.1 ho' with rfl | ho''
              · exact lt_of_le_of_lt h hs_lt
              · exact hlt o (List.mem_cons_of_mem a ho'')

/-- C1 (amended): the best-stream selector returns `none` on the empty list,
returns the sole element of a singleton unconditionally, and on lists of two
or more options returns the first-encountered option maximizing the code's
score `stream_score` (format bonus 1000 when the lowercased URL contains
".mp3" or the description contains "mp3", 500 for ".aac"/"aac", else 100,
plus the bitrate). -/
theorem select_best_stream_claim (streams : List StreamOption) :
    (streams = [] → select_best_stream streams = none) ∧
    (∀ s, streams = [s] → select_best_stream streams = some s) ∧
    (2 ≤ streams.length →
      ∃ b, select_best_stream streams = some b ∧ b ∈ streams ∧
        (∀ o ∈ streams, stream_score o ≤ stream_score b) ∧
        ∃ pre post, streams = pre ++ b :: post ∧ ∀ o ∈ pre, stream_score o < stream_score b) := by
  refine ⟨fun h => by subst h; rfl, fun s h => by subst h; rfl, fun h2 => ?_⟩
  cases streams with
  | nil => simp at h2
  | cons a rest =>
    cases rest with
    | nil => simp at h2
    | cons b t =>
      obtain ⟨hmem, hmax, pre, post, hdec, hlt⟩ := foldBest_spec (b :: t) a
      exact ⟨_, rfl, hmem, hmax, pre, post, hdec, hlt⟩

/-- Witness for C1 at a concrete two-element list. -/
theorem select_best_stream_claim_witness :
    ∃ bst, select_best_stream
        [⟨"http://a/x.mp3".data, [], 0⟩, ⟨"http://b/y".data, [], 0⟩] = some bst ∧
      bst ∈ [(⟨"http://a/x.mp3".data, [], 0⟩ : StreamOption), ⟨"http://b/y".data, [], 0⟩] ∧
      (∀ o ∈ [(⟨"http://a/x.mp3".data, [], 0⟩ : StreamOption), ⟨"http://b/y".data, [], 0⟩],
        stream_score o ≤ stream_score bst) ∧
      ∃ pre post,
        [(⟨"http://a/x.mp3".data, [], 0⟩ : StreamOption), ⟨"http://b/y".data, [], 0⟩] =
          pre ++ bst :: post ∧
        ∀ o ∈ pre, stream_score o < stream_score bst :=
  (select_best_stream_claim
    [⟨"http://a/x.mp3".data, [], 0⟩, ⟨"http://b/y".data, [], 0⟩]).2.2 (by decide)

/-- C1 counterexample: under the claim's own score ("the URL ... mentions
mp3"), the selector's choice is not score-maximal — the code requires ".mp3"
in the URL, so a URL that merely mentions "mp3" loses to an ".aac" URL. -/
theorem select_best_stream_claim_cex :
    select_best_stream
        [⟨"http://a/mp3stream".data, [], 0⟩, ⟨"http://b/x.aac".data, [], 0⟩]
      = some ⟨"http://b/x.aac".data, [], 0⟩ ∧
    claimScore (⟨"http://b/x.aac".data, [], 0⟩ : StreamOption) <
      claimScore ⟨"http://a/mp3stream".data, [], 0⟩ := by decide

/-- C2 (amended): on lists of two or more options whose bitrates all lie
within a window smaller than 400 kbps (the smallest format-bonus gap), the
selector's choice respects the format ordering — when an MP3-tier option is
present the selected option is MP3-tier, and when an AAC-tier option is
present the selected option is not other-tier. -/
theorem select_best_stream_format_claim (streams : List StreamOption)
    (h2 : 2 ≤ streams.length)
    (hgap : ∀ a ∈ streams, ∀ b ∈ streams, b.bitrate < a.bitrate + 400) :
    ∀ sel, select_best_stream streams = some sel →
      ((∃ m ∈ streams, mp3Tier m = true) → mp3Tier sel = true) ∧
      ((∃ aa ∈ streams, aacTier aa = true) → otherTier sel = false) := by
  cases streams with
  | nil => simp at h2
  | cons a rest =>
    cases rest with
    | nil => simp at h2
    | cons b t =>
      intro sel hsel
      obtain ⟨hmem, hmax, _⟩ := foldBest_spec (b :: t) a
      have hsel' : sel =
          (b :: t).foldl (fun best y => if stream_score best < stream_score y then y else best) a := by
        have heq : select_best_stream (a :: b :: t) =
            some ((b :: t).foldl (fun best y => if stream_score best < stream_score y then y else best) a) := rfl
        rw [heq] at hsel
        exact (Option.some_inj.1 hsel).symm
      rw [← hsel'] at hmem hmax
      constructor
      · rintro ⟨m, hm, hmp3⟩
        by_contra hne
        have hsel0 : mp3Cond sel = false := by
          revert hne
          unfold mp3Tier
          cases mp3Cond sel <;> simp
        have hm3 : mp3Cond m = true := hmp3
        have e1 : stream_score m = 1000 + m.bitrate := by
          unfold stream_score
          rw [hm3]
          simp
        have e2 : stream_score sel ≤ 500 + sel.bitrate := by
          unfold stream_score
          rw [hsel0]
          by_cases ha : aacCond sel = true <;> simp [ha]
        have e3 : stream_score m ≤ stream_score sel := hmax m hm
        have e4 : sel.bitrate < m.bitrate + 400 := hgap m hm sel hmem
        omega
      · rintro ⟨aa, ha, haac⟩
        by_contra hne
        have hsel1 : otherTier sel = true := by
          revert hne
          cases otherTier sel <;> simp
        have hb : mp3Cond sel = false ∧ aacCond sel = false := by
          revert hsel1
          unfold otherTier
          cases mp3Cond sel <;> cases aacCond sel <;> simp
        have hA : mp3Cond aa = false ∧ aacCond aa = true := by
          revert haac
          unfold aacTier
          cases mp3Cond aa <;> cases aacCond aa <;> simp
        have e1 : stream_score aa = 500 + aa.bitrate := by
          unfold stream_score
          rw [hA.1, hA.2]
          simp
        have e2 : stream_score sel = 100 + sel.bitrate := by
          unfold stream_score
          rw [hb.1, hb.2]
          simp
        have e3 : stream_score aa ≤ stream_score sel := hmax aa ha
        have e4 : sel.bitrate < aa.bitrate + 400 := hgap aa ha sel hmem
        omega

/-- Witness for C2 at a concrete two-element list with close bitrates. -/
theorem select_best_stream_format_claim_witness :
    mp3Tier (⟨"http://a/x.mp3".data, [], 128⟩ : StreamOption) = true :=
  ((select_best_stream_format_claim
      [⟨"http://a/x.mp3".data, [], 128⟩, ⟨"http://b/y".data, [], 64⟩]
      (by decide) (by decide)
      ⟨"http://a/x.mp3".data, [], 128⟩ (by decide)).1
    ⟨⟨"http://a/x.mp3".data, [], 128⟩, by decide, by decide⟩)

/-- C2 counterexample: with a large enough bitrate gap an other-tier option
outscores an MP3-tier option, so the format ordering does not hold
"regardless of the options' bitrate values". -/
theorem select_best_stream_format_claim_cex :
    mp3Tier (⟨"http://a/s.mp3".data, [], 0⟩ : StreamOption) = true ∧
    select_best_stream [⟨"http://a/s.mp3".data, [], 0⟩, ⟨"http://b/x".data, [], 1000⟩]
      = some ⟨"http://b/x".data, [], 1000⟩ ∧
    otherTier (⟨"http://b/x".data, [], 1000⟩ : StreamOption) = true := by decide

/-!  # Feed builder timestamps (C3)  -/

/-- C3 (amended): the generation timestamp is captured once per entry, not
once per document build — the `i`-th entry's pubDate is the formatted value
returned by the `i`-th `datetime.now()` call of the build, so all entries
carry the same pubDate only when those captures format identically. -/
theorem feed_pubdate_claim (now : Nat → List Char) (stations : List Station) :
    (create_single_rss_feed now stations).items.map FeedItem.pubDate
      = (List.range stations.length).map now := by
  unfold create_single_rss_feed
  simp only [List.map_map]
  have h1 : (FeedItem.pubDate ∘ fun p : Nat × Station => mkFeedItem p.2 (now p.1))
      = (now ∘ Prod.fst) := rfl
  rw [h1, List.enum_eq_zip_range, ← List.map_map, List.map_fst_zip]
  exact le_of_eq (List.length_range stations.length)

/-- C3 counterexample: two entries of one generated document carrying
different pubDate values, when the successive clock captures format
differently. -/
theorem feed_pubdate_claim_cex :
    ((create_single_rss_feed natChars
        [⟨"A".data, [], [], [], "http://a".data⟩,
         ⟨"B".data, [], [], [], "http://b".data⟩]).items.map FeedItem.pubDate)
      = ["0".data, "1".data] ∧ ("0".data : List Char) ≠ "1".data := by decide

/-!  # Logo resolution (C5, part of C10)  -/

theorem flag_values_nonempty : ∀ p ∈ country_flags, p.2 ≠ [] := by decide

theorem flagLookup_nonempty (c f : List Char) (h : flagLookup c = some f) : f ≠ [] := by
  unfold flagLookup at h
  rcases Option.map_eq_some'.1 h with ⟨p, hp, rfl⟩
  exact flag_values_nonempty p (List.mem_of_find?_eq_some hp)

theorem nameScanLogo_nonempty (n f : List Char) (h : nameScanLogo n = some f) : f ≠ [] := by
  unfold nameScanLogo at h
  rcases Option.map_eq_some'.1 h with ⟨p, hp, rfl⟩
  exact flag_values_nonempty p (List.mem_of_find?_eq_some hp)

/-- C5 (amended): the logo resolver is total — it returns a non-empty string
for every combination of logo attribute, country attribute and display name —
and it returns the logo attribute exactly whenever that attribute is non-blank
(non-empty after stripping whitespace), regardless of the country value; a
whitespace-only logo attribute is treated as absent. -/
theorem get_station_logo_claim :
    (∀ lo co nm, get_station_logo lo co nm ≠ []) ∧
    (∀ l co nm, stripList l ≠ [] → get_station_logo (some l) co nm = l) := by
  constructor
  · intro lo co nm
    unfold get_station_logo
    by_cases h : (stripList (lo.getD [])).isEmpty = false
    · rw [if_pos h]
      intro hnil
      rw [hnil] at h
      exact absurd h (by decide)
    · rw [if_neg h]
      have hdefault : default_logo ≠ [] := by decide
      cases co with
      | none =>
        by_cases hn : nm.isEmpty = true
        · simp [hn, hdefault]
        · simp only [Bool.not_eq_true] at hn
          simp only [hn]
          cases hsc : nameScanLogo nm with
          | none => simpa using hdefault
          | some f => simpa using nameScanLogo_nonempty nm f hsc
      | some c =>
        by_cases hc : c.isEmpty = true
        · simp only [hc, if_true]
          by_cases hn : nm.isEmpty = true
          · simp [hn, hdefault]
          · simp only [Bool.not_eq_true] at hn
            simp only [hn]
            cases hsc : nameScanLogo nm with
            | none => simpa using hdefault
            | some f => simpa using nameScanLogo_nonempty nm f hsc
        · simp only [Bool.not_eq_true] at hc
          simp only [hc]
          cases hfl : flagLookup (stripList c) with
          | some f => simpa using flagLookup_nonempty _ f hfl
          | none =>
            by_cases hn : nm.isEmpty = true
            · simp [hn, hdefault]
            · simp only [Bool.not_eq_true] at hn
              simp only [hn]
              cases hsc : nameScanLogo nm with
              | none => simpa using hdefault
              | some f => simpa using nameScanLogo_nonempty nm f hsc
  · intro l co nm h
    unfold get_station_logo
    have : (stripList ((some l).getD [])).isEmpty = false := by
      rcases hs : stripList ((some l).getD []) with _ | ⟨c, cs⟩
      · exact absurd hs h
      · rfl
    rw [if_pos this]
    rfl

/-- Witness for C5: a non-blank logo attribute is returned verbatim even with
a known country present. -/
theorem get_station_logo_claim_witness :
    get_station_logo (some ("logo.png".data)) (some ("BE".data)) "X | FR".data = "logo.png".data :=
  get_station_logo_claim.2 ("logo.png".data) (some ("BE".data)) "X | FR".data (by decide)

/-- C5 counterexample: a whitespace-only logo attribute is a non-empty string,
yet the resolver does not return it (it falls through to the country flag). -/
theorem get_station_logo_claim_cex :
    (" ".data : List Char) ≠ [] ∧
    get_station_logo (some (" ".data)) (some ("FR".data)) "X".data ≠ " ".data := by decide

/-!  # Playlist parsing (C10, C8, C6)  -/

theorem startsWith_marker_not_url (l : List Char)
    (h : listStartsWith l extinfMarker = true) : isUrlStripped l = false := by
  cases l with
  | nil => simp [listStartsWith, extinfMarker] at h
  | cons c cs =>
    have hc : c = '#' := by
      rcases (listStartsWith_iff extinfMarker (c :: cs)).1 h with ⟨q, hq⟩
      have hq' : c :: cs = '#' :: ("EXTINF:".data ++ q) := hq
      injection hq' with h1 h2
    subst hc
    rfl

theorem isUrlStripped_ne_nil (l : List Char) (h : isUrlStripped l = true) : l ≠ [] := by
  cases l with
  | nil => simp [isUrlStripped] at h
  | cons c cs => simp

theorem m3uStep_meta (acc : Option Station × List Station) (raw attrs nameSeg : List Char)
    (hm : listStartsWith (stripList raw) extinfMarker = true)
    (hsplit : splitFirstComma (stripList raw) = some (attrs, nameSeg)) :
    m3uStep acc raw = (some (mkStation attrs nameSeg), acc.2) := by
  unfold m3uStep
  rw [if_pos hm, hsplit]

theorem m3uStep_meta_nocomma (acc : Option Station × List Station) (raw : List Char)
    (hm : listStartsWith (stripList raw) extinfMarker = true)
    (hsplit : splitFirstComma (stripList raw) = none) :
    m3uStep acc raw = acc := by
  unfold m3uStep
  rw [if_pos hm, hsplit]

theorem m3uStep_url_open (cur : Station) (out : List Station) (raw : List Char)
    (hurl : isUrlStripped (stripList raw) = true) :
    m3uStep (some cur, out) raw = (none, out ++ [setUrl cur (stripList raw)]) := by
  unfold m3uStep
  have hm : listStartsWith (stripList raw) extinfMarker = false := by
    cases hs : listStartsWith (stripList raw) extinfMarker
    · rfl
    · rw [startsWith_marker_not_url _ hs] at hurl
      exact absurd hurl (by decide)
  rw [if_neg (by simp [hm]), if_pos hurl]

theorem m3uStep_url_closed (out : List Station) (raw : List Char)
    (hurl : isUrlStripped (stripList raw) = true) :
    m3uStep (none, out) raw = (none, out) := by
  unfold m3uStep
  have hm : listStartsWith (stripList raw) extinfMarker = false := by
    cases hs : listStartsWith (stripList raw) extinfMarker
    · rfl
    · rw [startsWith_marker_not_url _ hs] at hurl
      exact absurd hurl (by decide)
  rw [if_neg (by simp [hm]), if_pos hurl]

theorem m3uStep_other (acc : Option Station × List Station) (raw : List Char)
    (hm : listStartsWith (stripList raw) extinfMarker = false)
    (hurl : isUrlStripped (stripList raw) = false) :
    m3uStep acc raw = acc := by
  unfold m3uStep
  rw [if_neg (by simp [hm]), if_neg (by simp [hurl])]

/-- C10: a metadata line with an empty name segment still opens an
accumulator; the following URL line emits a record whose name is the empty
string and whose URL alone is non-empty, and the empty name disables the
name-scan fallback, so the logo comes from the logo attribute, the country
mapping, or the default. -/
theorem parse_m3u_empty_name_claim
    (metaLine urlLine attrs nameSeg : List Char)
    (hm : listStartsWith (stripList metaLine) extinfMarker = true)
    (hsplit : splitFirstComma (stripList metaLine) = some (attrs, nameSeg))
    (hname : stripList nameSeg = [])
    (hurl : isUrlStripped (stripList urlLine) = true) :
    (∃ st, parse_m3u [metaLine, urlLine] = [st] ∧ st.name = [] ∧
      st.url = stripList urlLine ∧ st.url ≠ []) ∧
    (∀ lo co, get_station_logo lo co [] = logoNoNameScan lo co) := by
  constructor
  · refine ⟨setUrl (mkStation attrs nameSeg) (stripList urlLine), ?_, ?_, rfl, ?_⟩
    · unfold parse_m3u
      simp only [List.foldl_cons, List.foldl_nil]
      rw [m3uStep_meta (none, []) metaLine attrs nameSeg hm hsplit,
        m3uStep_url_open (mkStation attrs nameSeg) [] urlLine hurl]
      rfl
    · simpa [setUrl, mkStation] using hname
    · exact isUrlStripped_ne_nil _ hurl
  · intro lo co
    rfl

/-- Witness for C10 at a concrete two-line playlist whose metadata line ends
at its first comma. -/
theorem parse_m3u_empty_name_claim_witness :
    (∃ st, parse_m3u ["#EXTINF:-1 tvg-country=\"FR\",".data, "http://e/s".data] = [st] ∧
      st.name = [] ∧ st.url = stripList ("http://e/s".data) ∧ st.url ≠ []) ∧
    (∀ lo co, get_station_logo lo co [] = logoNoNameScan lo co) :=
  parse_m3u_empty_name_claim ("#EXTINF:-1 tvg-country=\"FR\",".data) "http://e/s".data
    "#EXTINF:-1 tvg-country=\"FR\"".data [] (by decide) (by decide) (by decide) (by decide)

theorem m3u_fold_url_nonempty :
    ∀ (lines : List (List Char)) (acc : Option Station × List Station),
      (∀ st ∈ acc.2, st.url ≠ []) →
      ∀ st ∈ (lines.foldl m3uStep acc).2, st.url ≠ [] := by
  intro lines
  induction lines with
  | nil => intro acc h; exact h
  | cons l ls ih =>
    intro acc h
    rw [List.foldl_cons]
    apply ih
    cases hm : listStartsWith (stripList l) extinfMarker with
    | true =>
      cases hsp : splitFirstComma (stripList l) with
      | some p =>
        rw [m3uStep_meta acc l p.1 p.2 hm (by rw [hsp])]
        exact h
      | none =>
        rw [m3uStep_meta_nocomma acc l hm hsp]
        exact h
    | false =>
      cases hu : isUrlStripped (stripList l) with
      | false =>
        rw [m3uStep_other acc l hm hu]
        exact h
      | true =>
        rcases acc with ⟨a1, out⟩
        cases a1 with
        | none =>
          rw [m3uStep_url_closed out l hu]
          exact h
        | some cur =>
          rw [m3uStep_url_open cur out l hu]
          intro st hst
          rcases List.mem_append.1 hst with hst' | hst'
          · exact h st hst'
          · rcases List.mem_singleton.1 hst' with rfl
            exact isUrlStripped_ne_nil _ hu

theorem scrape_fold_url_nonempty :
    ∀ (results : List (Option RadioInfo)) (acc : List RadioInfo),
      (∀ r ∈ acc, ∃ u, r.stream_url = some u ∧ u ≠ []) →
      ∀ r ∈ results.foldl (fun acc o =>
          match o with
          | some r => if (r.stream_url.getD []).isEmpty then acc else acc ++ [r]
          | none => acc) acc,
        ∃ u, r.stream_url = some u ∧ u ≠ [] := by
  intro results
  induction results with
  | nil => intro acc h; exact h
  | cons o os ih =>
    intro acc h
    rw [List.foldl_cons]
    apply ih
    cases o with
    | none => exact h
    | some r =>
      simp only
      by_cases hr : (r.stream_url.getD []).isEmpty = true
      · rw [if_pos hr]
        exact h
      · rw [if_neg hr]
        intro r' hr'
        rcases List.mem_append.1 hr' with h' | h'
        · exact h r' h'
        · rcases List.mem_singleton.1 h' with rfl
          cases hu : r'.stream_url with
          | none => rw [hu] at hr; exact absurd (by decide) hr
          | some u =>
            refine ⟨u, rfl, ?_⟩
            rw [hu] at hr
            intro hnil
            subst hnil
            exact hr (by decide)

/-- C8: every record that reaches an output file has a non-empty stream URL —
the playlist parser finalizes a record only on a non-empty non-comment line,
and the directory orchestrator retains only records whose `stream_url` is
present and non-empty. -/
theorem output_nonempty_url_claim :
    (∀ lines, ∀ st ∈ parse_m3u lines, st.url ≠ []) ∧
    (∀ results, ∀ r ∈ scrape_all_radios results, ∃ u, r.stream_url = some u ∧ u ≠ []) := by
  constructor
  · intro lines st hst
    exact m3u_fold_url_nonempty lines (none, []) (by simp) st hst
  · intro results r hr
    exact scrape_fold_url_nonempty results [] (by simp) r hr

/-- Witness for C8 at concrete runs of both pipelines. -/
theorem output_nonempty_url_claim_witness :
    (setUrl (mkStation ("#EXTINF:-1".data) "A".data) "http://u".data).url ≠ [] ∧
    ∃ u, (RadioInfo.mk ("p".data) "n".data ("t".data) "d".data [] []
        (some ("http://s".data)) (some ("64kbps".data))).stream_url = some u ∧ u ≠ [] :=
  ⟨output_nonempty_url_claim.1 ["#EXTINF:-1,A".data, "http://u".data] _ (by decide),
   output_nonempty_url_claim.2 [some (RadioInfo.mk ("p".data) "n".data ("t".data) "d".data [] []
        (some ("http://s".data)) (some ("64kbps".data)))] _ (by decide)⟩

/-!  # Output serialization (C4)  -/

theorem factor_chain {l m p : List Char} (x y : List Char)
    (hm : ∃ a b, m = a ++ p ++ b) (hl : l = x ++ m ++ y) :
    ∃ a b, l = a ++ p ++ b := by
  rcases hm with ⟨a, b, rfl⟩
  exact ⟨x ++ a, b ++ y, by simp [hl, List.append_assoc]⟩

theorem joinSep_factor {α : Type} (sep : List Char) (f : α → List Char) :
    ∀ (data : List α) (r : α), r ∈ data →
      ∃ a b, joinSep sep (data.map f) = a ++ f r ++ b := by
  intro data
  induction data with
  | nil => intro r hr; simp at hr
  | cons x rest ih =>
    intro r hr
    rcases List.mem_cons.1 hr with rfl | hr'
    · cases rest with
      | nil => exact ⟨[], [], by simp [joinSep]⟩
      | cons y t =>
        exact ⟨[], sep ++ joinSep sep ((y :: t).map f),
          by simp [joinSep, List.append_assoc]⟩
    · rcases ih r hr' with ⟨a, b, hab⟩
      cases rest with
      | nil => simp at hr'
      | cons y t =>
        refine ⟨f x ++ sep ++ a, b, ?_⟩
        simp only [List.map_cons, joinSep] at hab ⊢
        rw [hab]
        simp [List.append_assoc]

theorem jsonEscape_clean (s : List Char)
    (h : s.all (fun c => !(c == '"') && !(c == '\\')) = true) : jsonEscape s = s := by
  induction s with
  | nil => rfl
  | cons c cs ih =>
    simp only [List.all_cons, Bool.and_eq_true, Bool.not_eq_true'] at h
    unfold jsonEscape
    rw [List.foldr_cons, h.1.1, h.1.2]
    simp only [Bool.false_eq_true, if_false]
    have := ih h.2
    unfold jsonEscape at this
    rw [this]

/-- C4 (amended): the CSV rows are independent of the retained stream options
(surrounding text never reaches the CSV file), but the JSON file retains the
full stream list — the surrounding text of every retained stream option
occurs verbatim in the serialized JSON output. -/
theorem save_outputs_surrounding_text_claim :
    (∀ r s, csv_row (setStreams r s) = csv_row r) ∧
    (∀ data (r : RadioInfo) (s : StreamOption), r ∈ data → s ∈ r.streams →
      s.description.all (fun c => !(c == '"') && !(c == '\\')) = true →
      listHasSub (save_to_json data) s.description = true) := by
  constructor
  · intro r s
    rfl
  · intro data r s hr hs hclean
    rw [listHasSub_iff]
    have step4 : ∃ a b, jsonStr s.description = a ++ s.description ++ b := by
      refine ⟨['"'], ['"'], ?_⟩
      unfold jsonStr
      rw [jsonEscape_clean s.description hclean]
      simp
    have step3 : ∃ a b, jsonOfStream s = a ++ s.description ++ b := by
      apply factor_chain ("\x7b\"url\": ".data ++ jsonStr s.url ++ ", \"description\": ".data)
        (", \"bitrate\": ".data ++ natChars s.bitrate ++ "\x7d".data) step4
      unfold jsonOfStream
      simp [List.append_assoc]
    have step2 : ∃ a b, jsonOfRadio r = a ++ s.description ++ b := by
      rcases joinSep_factor (", ".data) jsonOfStream r.streams s hs with ⟨a, b, hab⟩
      have hstream : ∃ a' b', joinSep (", ".data) (r.streams.map jsonOfStream)
          = a' ++ s.description ++ b' := by
        apply factor_chain a b step3
        exact hab
      apply factor_chain
        ("\x7b\"page_url\": ".data ++ jsonStr r.page_url ++ ", \"name\": ".data ++
          jsonStr r.name ++ ", \"title\": ".data ++ jsonStr r.title ++
          ", \"description\": ".data ++ jsonStr r.description ++ ", \"logo_url\": ".data ++
          jsonStr r.logo_url ++ ", \"streams\": [".data)
        ("]".data ++
          (match r.stream_url with
           | some u => ", \"stream_url\": ".data ++ jsonStr u
           | none => []) ++
          (match r.stream_quality with
           | some q => ", \"stream_quality\": ".data ++ jsonStr q
           | none => []) ++
          "\x7d".data)
        hstream
      unfold jsonOfRadio
      simp [List.append_assoc]
    have step1 : ∃ a b, joinSep (", ".data) (data.map jsonOfRadio)
        = a ++ s.description ++ b := by
      rcases joinSep_factor (", ".data) jsonOfRadio data r hr with ⟨a, b, hab⟩
      apply factor_chain a b step2
      exact hab
    apply factor_chain ("[".data) "]".data step1
    unfold save_to_json
    simp [List.append_assoc]

/-- Witness for C4 on a concrete pipeline run with one retained stream. -/
theorem save_outputs_surrounding_text_claim_witness :
    listHasSub
      (save_to_json (scrape_all_radios [some (buildRadioInfo ("p".data) "n".data ("t".data)
        "d".data [] [⟨"http://r/s.mp3".data, "ctx mp3 192kbps".data, 192⟩])]))
      ("ctx mp3 192kbps".data : List Char) = true :=
  save_outputs_surrounding_text_claim.2
    (scrape_all_radios [some (buildRadioInfo ("p".data) "n".data ("t".data)
      "d".data [] [⟨"http://r/s.mp3".data, "ctx mp3 192kbps".data, 192⟩])])
    (buildRadioInfo ("p".data) "n".data ("t".data) "d".data []
      [⟨"http://r/s.mp3".data, "ctx mp3 192kbps".data, 192⟩])
    ⟨"http://r/s.mp3".data, "ctx mp3 192kbps".data, 192⟩
    (by decide) (by decide) (by decide)

/-- C4 counterexample: a directory-pipeline run whose JSON output contains a
stream option's surrounding text verbatim. -/
theorem save_outputs_surrounding_text_claim_cex :
    listHasSub
      (save_to_json (scrape_all_radios [some (buildRadioInfo ("p2".data) "n2".data ("t2".data)
        "d2".data [] [⟨"http://r/t.mp3".data, "surrounding 128kbps".data, 128⟩])]))
      ("surrounding 128kbps".data : List Char) = true ∧
    (("surrounding 128kbps".data : List Char) ≠ []) := by decide

/-!  # Candidate-link extraction (C9)  -/

theorem mem_dedupFO (x : List Char) :
    ∀ (n : Nat) (l : List (List Char)), l.length ≤ n → (x ∈ dedupFO l ↔ x ∈ l) := by
  intro n
  induction n with
  | zero =>
    intro l hl
    have : l = [] := List.length_eq_zero.1 (Nat.le_zero.1 hl)
    subst this
    simp [dedupFO]
  | succ n ih =>
    intro l hl
    cases l with
    | nil => simp [dedupFO]
    | cons y ys =>
      have hlen : (ys.filter (fun z => z != y)).length ≤ n := by
        have h1 : (ys.filter (fun z => z != y)).length ≤ ys.length := List.length_filter_le _ _
        have h2 : ys.length ≤ n := Nat.lt_succ_iff.1 (by simpa using Nat.lt_of_lt_of_le (Nat.lt_succ_of_le (Nat.le_refl _)) hl)
        omega
      rw [show dedupFO (y :: ys) = y :: dedupFO (ys.filter (fun z => z != y)) from by rw [dedupFO]]
      constructor
      · intro hx
        rcases List.mem_cons.1 hx with rfl | hx'
        · exact List.mem_cons_self _ _
        · have := (ih _ hlen).1 hx'
          exact List.mem_cons_of_mem y (List.mem_of_mem_filter this)
      · intro hx
        rcases List.mem_cons.1 hx with rfl | hx'
        · exact List.mem_cons_self _ _
        · by_cases hxy : x = y
          · subst hxy
            exact List.mem_cons_self _ _
          · refine List.mem_cons_of_mem y ((ih _ hlen).2 ?_)
            refine List.mem_filter.2 ⟨hx', ?_⟩
            simpa using hxy

theorem nodup_dedupFO :
    ∀ (n : Nat) (l : List (List Char)), l.length ≤ n → (dedupFO l).Nodup := by
  intro n
  induction n with
  | zero =>
    intro l hl
    have : l = [] := List.length_eq_zero.1 (Nat.le_zero.1 hl)
    subst this
    simp [dedupFO]
  | succ n ih =>
    intro l hl
    cases l with
    | nil => simp [dedupFO]
    | cons y ys =>
      have hlen : (ys.filter (fun z => z != y)).length ≤ n := by
        have h1 : (ys.filter (fun z => z != y)).length ≤ ys.length := List.length_filter_le _ _
        have h2 : ys.length + 1 ≤ n + 1 := by simpa using hl
        omega
      rw [show dedupFO (y :: ys) = y :: dedupFO (ys.filter (fun z => z != y)) from by rw [dedupFO]]
      refine List.nodup_cons.2 ⟨?_, ih _ hlen⟩
      intro hy
      have := (mem_dedupFO y _ _ (Nat.le_refl _)).1 hy
      have hne := (List.mem_filter.1 this).2
      simp at hne

theorem extract_fold_eq (resolve : List Char → List Char) :
    ∀ (hrefs : List (List Char)) (acc : List (List Char)),
      hrefs.foldl (fun acc href =>
          if href_qualifies href then
            if resolve href ∈ acc then acc else acc ++ [resolve href]
          else acc) acc
        = acc ++ dedupFO (((hrefs.filter href_qualifies).map resolve).filter
            (fun y => !(decide (y ∈ acc)))) := by
  intro hrefs
  induction hrefs with
  | nil =>
    intro acc
    simp [dedupFO]
  | cons h hs ih =>
    intro acc
    rw [List.foldl_cons]
    by_cases hq : href_qualifies h = true
    · rw [if_pos hq]
      by_cases hmem : resolve h ∈ acc
      · rw [if_pos hmem, ih acc]
        have : ((h :: hs).filter href_qualifies).map resolve
            = resolve h :: (hs.filter href_qualifies).map resolve := by
          rw [List.filter_cons_of_pos hq]
          rfl
        rw [this, List.filter_cons_of_neg (by simpa using hmem)]
      · rw [if_neg hmem, ih (acc ++ [resolve h])]
        have h1 : ((h :: hs).filter href_qualifies).map resolve
            = resolve h :: (hs.filter href_qualifies).map resolve := by
          rw [List.filter_cons_of_pos hq]
          rfl
        rw [h1, List.filter_cons_of_pos (by simpa using hmem)]
        rw [show dedupFO (resolve h :: ((hs.filter href_qualifies).map resolve).filter
              (fun y => !(decide (y ∈ acc))))
            = resolve h :: dedupFO ((((hs.filter href_qualifies).map resolve).filter
              (fun y => !(decide (y ∈ acc)))).filter (fun z => z != resolve h)) from by rw [dedupFO]]
        rw [List.filter_filter]
        have hcong : ((hs.filter href_qualifies).map resolve).filter
              (fun y => !(decide (y ∈ acc ++ [resolve h])))
            = ((hs.filter href_qualifies).map resolve).filter
              (fun y => (y != resolve h) && !(decide (y ∈ acc))) := by
          apply List.filter_congr
          intro y _
          by_cases hy1 : y = resolve h
          · subst hy1
            simp
          · by_cases hy2 : y ∈ acc <;> simp [hy1, hy2]
        rw [hcong]
        simp [List.append_assoc]
    · rw [if_neg hq, ih acc, List.filter_cons_of_neg (by simpa using hq)]

/-- C9 (amended): the candidate-link extractor returns, in first-seen order
with duplicates suppressed, the resolutions of exactly those hrefs that
contain both the detail-page marker substring and the expected-host substring
(a substring test, not a parsed-host comparison). -/
theorem extract_radio_links_claim (resolve : List Char → List Char)
    (hrefs : List (List Char)) :
    extract_radio_links resolve hrefs = dedupFO ((hrefs.filter href_qualifies).map resolve) ∧
    (extract_radio_links resolve hrefs).Nodup ∧
    (∀ x, x ∈ extract_radio_links resolve hrefs ↔
      ∃ h ∈ hrefs, href_qualifies h = true ∧ x = resolve h) := by
  have hmain : extract_radio_links resolve hrefs
      = dedupFO ((hrefs.filter href_qualifies).map resolve) := by
    unfold extract_radio_links
    rw [extract_fold_eq resolve hrefs []]
    have : ((hrefs.filter href_qualifies).map resolve).filter
          (fun y => !(decide (y ∈ ([] : List (List Char)))))
        = (hrefs.filter href_qualifies).map resolve := by
      apply List.filter_eq_self.2
      intro y _
      simp
    rw [this]
    rfl
  refine ⟨hmain, ?_, ?_⟩
  · rw [hmain]
    exact nodup_dedupFO _ _ (Nat.le_refl _)
  · intro x
    rw [hmain, mem_dedupFO x _ _ (Nat.le_refl _), List.mem_map]
    constructor
    · rintro ⟨h, hh, rfl⟩
      rcases List.mem_filter.1 hh with ⟨hh1, hh2⟩
      exact ⟨h, hh1, hh2, rfl⟩
    · rintro ⟨h, hh1, hh2, rfl⟩
      exact ⟨h, List.mem_filter.2 ⟨hh1, hh2⟩, rfl⟩

/-- Witness for C9: duplicate qualifying hrefs yield a single entry. -/
theorem extract_radio_links_claim_witness :
    extract_radio_links urljoinAbsolute
        ["https://fluxradios.blogspot.com/flux-url-a.html".data,
         "https://fluxradios.blogspot.com/flux-url-a.html".data]
      = ["https://fluxradios.blogspot.com/flux-url-a.html".data] := by
  rw [(extract_radio_links_claim urljoinAbsolute
      ["https://fluxradios.blogspot.com/flux-url-a.html".data,
       "https://fluxradios.blogspot.com/flux-url-a.html".data]).1]
  rw [show ((["https://fluxradios.blogspot.com/flux-url-a.html".data,
        "https://fluxradios.blogspot.com/flux-url-a.html".data].filter
          href_qualifies).map urljoinAbsolute)
      = ["https://fluxradios.blogspot.com/flux-url-a.html".data,
         "https://fluxradios.blogspot.com/flux-url-a.html".data] from by decide]
  rw [show dedupFO ["https://fluxradios.blogspot.com/flux-url-a.html".data,
        "https://fluxradios.blogspot.com/flux-url-a.html".data]
      = "https://fluxradios.blogspot.com/flux-url-a.html".data ::
          dedupFO (["https://fluxradios.blogspot.com/flux-url-a.html".data].filter
            (fun y => y != "https://fluxradios.blogspot.com/flux-url-a.html".data))
      from by rw [dedupFO]]
  rw [show (["https://fluxradios.blogspot.com/flux-url-a.html".data].filter
        (fun y => y != "https://fluxradios.blogspot.com/flux-url-a.html".data))
      = ([] : List (List Char)) from by decide]
  rw [show dedupFO ([] : List (List Char)) = [] from by rw [dedupFO]]

/-- C9 counterexample: an href that merely contains the host name as a
substring is kept although its actual host is not the expected one, so the
output is not "exactly those hrefs that belong to the expected host". -/
theorem extract_radio_links_claim_cex :
    extract_radio_links urljoinAbsolute
        ["https://evil.example/fluxradios.blogspot.com/flux-url-a.html".data]
      = ["https://evil.example/fluxradios.blogspot.com/flux-url-a.html".data] ∧
    hostOf ("https://evil.example/fluxradios.blogspot.com/flux-url-a.html".data) ≠ hostSub := by
  decide

/-!  # Stream-quality estimation (C7)  -/

theorem bpsAt_cons (c : Char) (t : List Char) (n : Nat) (h : bpsAt t n) :
    bpsAt (c :: t) n := by
  rcases h with ⟨pre, d, ws, k, b, post, heq, hd, hdig, hws, hk, hb, hval⟩
  exact ⟨c :: pre, d, ws, k, b, post, by rw [heq]; rfl, hd, hdig, hws, hk, hb, hval⟩

theorem matchBpsAt_some_decomp (s : List Char) (n : Nat)
    (h : matchBpsAt s = some n) : bpsAt s n := by
  simp only [matchBpsAt] at h
  split at h
  · exact absurd h (by simp)
  · next hrun =>
    split at h
    · next hsw =>
      have hn : n = digitsVal (s.takeWhile isDigitCh) := by
        injection h with h'
        exact h'.symm
      have hsplit : s = s.takeWhile isDigitCh ++ s.dropWhile isDigitCh :=
        (List.takeWhile_append_dropWhile (p := isDigitCh) (l := s)).symm
      have hsplit2 : s.dropWhile isDigitCh
          = (s.dropWhile isDigitCh).takeWhile isSpaceCh ++
            (s.dropWhile isDigitCh).dropWhile isSpaceCh :=
        (List.takeWhile_append_dropWhile (p := isSpaceCh) (l := s.dropWhile isDigitCh)).symm
      rcases hr : (s.dropWhile isDigitCh).dropWhile isSpaceCh with _ | ⟨c, cs⟩
      · rw [hr] at hsw
        exact absurd hsw (by decide)
      · rw [hr] at hsw hsplit2
        have hsw2 : listStartsWith (toLowerL
            (if (lowerCh c == 'k') = true then cs else c :: cs)) "bps".data = true := hsw
        by_cases hkc : (lowerCh c == 'k') = true
        · rw [if_pos hkc] at hsw2
          rcases (listStartsWith_iff ("bps".data) (toLowerL cs)).1 hsw2 with ⟨q, hq⟩
          rcases map_split ("bps".data) cs q hq with ⟨b, post, rfl, hbl, _⟩
          refine ⟨[], s.takeWhile isDigitCh, (s.dropWhile isDigitCh).takeWhile isSpaceCh,
            [c], b, post, ?_, ?_, mem_takeWhile_pred _ _, mem_takeWhile_pred _ _,
            Or.inr ⟨c, rfl, beq_iff_eq.1 hkc⟩, hbl, hn.symm⟩
          · conv_lhs => rw [hsplit, hsplit2]
            simp [List.append_assoc]
          · intro hnil
            rw [hnil] at hrun
            exact hrun (by decide)
        · rw [if_neg hkc] at hsw2
          rcases (listStartsWith_iff ("bps".data) (toLowerL (c :: cs))).1 hsw2 with ⟨q, hq⟩
          rcases map_split ("bps".data) (c :: cs) q hq with ⟨b, post, hcs, hbl, _⟩
          refine ⟨[], s.takeWhile isDigitCh, (s.dropWhile isDigitCh).takeWhile isSpaceCh,
            [], b, post, ?_, ?_, mem_takeWhile_pred _ _, mem_takeWhile_pred _ _,
            Or.inl rfl, hbl, hn.symm⟩
          · conv_lhs => rw [hsplit, hsplit2]
            rw [hcs]
            simp [List.append_assoc]
          · intro hnil
            rw [hnil] at hrun
            exact hrun (by decide)
    · exact absurd h (by simp)

theorem searchBps_some_decomp : ∀ (s : List Char) (n : Nat), searchBps s = some n → bpsAt s n := by
  intro s
  induction s with
  | nil => intro n h; exact absurd h (by simp [searchBps])
  | cons c cs ih =>
    intro n h
    rw [searchBps] at h
    cases hm : matchBpsAt (c :: cs) with
    | some m =>
      rw [hm] at h
      have hmn : m = n := by injection h
      subst hmn
      exact matchBpsAt_some_decomp _ _ hm
    | none =>
      rw [hm] at h
      exact bpsAt_cons c cs n (ih n h)

theorem matchBpsAt_full (d ws k b post : List Char)
    (hd : d ≠ []) (hdig : ∀ c ∈ d, isDigitCh c = true)
    (hws : ∀ c ∈ ws, isSpaceCh c = true) (hk : isKOpt k) (hb : isBpsCI b) :
    matchBpsAt (d ++ (ws ++ (k ++ (b ++ post)))) = some (digitsVal d) := by
  rcases b with _ | ⟨b0, btail⟩
  · exact absurd hb (by simp [isBpsCI, toLowerL])
  · have hbeq : toLowerL (b0 :: btail) = "bps".data := hb
    have hb0 : lowerCh b0 = 'b' := by
      have h := congrArg List.head? hbeq
      simpa [toLowerL] using h
    have hhead1 : ∀ c, (ws ++ (k ++ ((b0 :: btail) ++ post))).head? = some c →
        isDigitCh c = false := by
      intro c hc
      cases ws with
      | cons w ws' =>
        have hcw : w = c := Option.some.inj hc
        subst hcw
        exact space_not_digit w (hws w (by simp))
      | nil =>
        rcases hk with rfl | ⟨kc, rfl, hkc⟩
        · have hcb : b0 = c := Option.some.inj hc
          subst hcb
          exact lower_b_not_digit b0 hb0
        · have hck : kc = c := Option.some.inj hc
          subst hck
          exact lower_k_not_digit kc hkc
    have hhead2 : ∀ c, (k ++ ((b0 :: btail) ++ post)).head? = some c →
        isSpaceCh c = false := by
      intro c hc
      rcases hk with rfl | ⟨kc, rfl, hkc⟩
      · have hcb : b0 = c := Option.some.inj hc
        subst hcb
        exact lower_b_not_space b0 hb0
      · have hck : kc = c := Option.some.inj hc
        subst hck
        exact lower_k_not_space kc hkc
    have h1 := takeWhile_app_eq isDigitCh d (ws ++ (k ++ ((b0 :: btail) ++ post))) hdig hhead1
    have h2 := takeWhile_app_eq isSpaceCh ws (k ++ ((b0 :: btail) ++ post)) hws hhead2
    have hstarts : listStartsWith (toLowerL (b0 :: (btail ++ post))) "bps".data = true := by
      apply (listStartsWith_iff _ _).2
      refine ⟨toLowerL post, ?_⟩
      have hsplit : toLowerL (b0 :: (btail ++ post)) = toLowerL (b0 :: btail) ++ toLowerL post := by
        simp [toLowerL]
      rw [hsplit, hbeq]
    simp only [matchBpsAt]
    rw [h1.1, h1.2, h2.2]
    rw [if_neg (by simpa [List.isEmpty_iff] using hd)]
    rcases hk with rfl | ⟨kc, rfl, hkc⟩
    · have hcond : (lowerCh b0 == 'k') = false := by
        rw [hb0]
        decide
      show (if listStartsWith (toLowerL (if (lowerCh b0 == 'k') = true then btail ++ post
            else b0 :: (btail ++ post))) "bps".data = true
          then some (digitsVal d) else none) = some (digitsVal d)
      simp only [hcond, Bool.false_eq_true, if_false]
      rw [if_pos hstarts]
    · have hcond : (lowerCh kc == 'k') = true := by
        rw [hkc]
        decide
      show (if listStartsWith (toLowerL (if (lowerCh kc == 'k') = true then (b0 :: btail) ++ post
            else kc :: ((b0 :: btail) ++ post))) "bps".data = true
          then some (digitsVal d) else none) = some (digitsVal d)
      simp only [hcond, if_true]
      rw [List.cons_append, if_pos hstarts]

theorem searchBps_append_isSome (t : List Char) (n : Nat) (hm : matchBpsAt t = some n) :
    ∀ pre : List Char, (searchBps (pre ++ t)).isSome = true := by
  intro pre
  induction pre with
  | nil =>
    cases t with
    | nil =>
      rw [show matchBpsAt [] = none from rfl] at hm
      exact Option.noConfusion hm
    | cons c cs =>
      rw [List.nil_append, searchBps, hm]
      rfl
  | cons p ps ih =>
    rw [List.cons_append, searchBps]
    cases hm2 : matchBpsAt (p :: (ps ++ t)) with
    | some m => rfl
    | none => exact ih

theorem bpsAt_isSome (s : List Char) (n : Nat) (h : bpsAt s n) :
    (searchBps s).isSome = true := by
  rcases h with ⟨pre, d, ws, k, b, post, heq, hd, hdig, hws, hk, hb, _⟩
  have hm := matchBpsAt_full d ws k b post hd hdig hws hk hb
  have heq2 : s = pre ++ (d ++ (ws ++ (k ++ (b ++ post)))) := by
    rw [heq]
    simp [List.append_assoc]
  rw [heq2]
  exact searchBps_append_isSome _ _ hm pre

/-- C7: the stream-quality estimator is total; whenever the context contains
a number followed by optional whitespace, an optional "k" and "bps"
(case-insensitive) it returns the value of such an embedded pattern; with no
such pattern it returns 128 when the text contains "mp3" (case-insensitive),
else 96 when it contains "aac", else 64. -/
theorem parse_stream_quality_claim (s : List Char) :
    ((∃ n, bpsAt s n) → bpsAt s (parse_stream_quality s)) ∧
    ((¬ ∃ n, bpsAt s n) →
      (listHasSub (toLowerL s) "mp3".data = true → parse_stream_quality s = 128) ∧
      (listHasSub (toLowerL s) "mp3".data = false →
        listHasSub (toLowerL s) "aac".data = true → parse_stream_quality s = 96) ∧
      (listHasSub (toLowerL s) "mp3".data = false →
        listHasSub (toLowerL s) "aac".data = false → parse_stream_quality s = 64)) := by
  constructor
  · rintro ⟨n, hn⟩
    have hsome := bpsAt_isSome s n hn
    rcases hm : searchBps s with _ | m
    · rw [hm] at hsome
      exact absurd hsome (by decide)
    · have hpq : parse_stream_quality s = m := by
        unfold parse_stream_quality
        rw [hm]
      rw [hpq]
      exact searchBps_some_decomp s m hm
  · intro hno
    have hnone : searchBps s = none := by
      rcases hm : searchBps s with _ | m
      · rfl
      · exact absurd ⟨m, searchBps_some_decomp s m hm⟩ hno
    have hpq : parse_stream_quality s =
        (if listHasSub (toLowerL s) "mp3".data then 128
         else if listHasSub (toLowerL s) "aac".data then 96 else 64) := by
      unfold parse_stream_quality
      rw [hnone]
    refine ⟨?_, ?_, ?_⟩
    · intro h1
      rw [hpq, if_pos h1]
    · intro h1 h2
      rw [hpq, if_neg (by simp [h1]), if_pos h2]
    · intro h1 h2
      rw [hpq, if_neg (by simp [h1]), if_neg (by simp [h2])]

/-- Witness for C7 at concrete contexts with and without the pattern. -/
theorem parse_stream_quality_claim_witness :
    bpsAt ("192kbps".data) (parse_stream_quality ("192kbps".data)) ∧
    parse_stream_quality ("plays mp3 audio".data) = 128 := by
  constructor
  · exact (parse_stream_quality_claim ("192kbps".data)).1
      ⟨192, [], ['1', '9', '2'], [], ['k'], ['b', 'p', 's'], [], by decide, by decide,
        by decide, by decide, Or.inr ⟨'k', rfl, by decide⟩,
        (by decide : toLowerL ['b', 'p', 's'] = "bps".data), by decide⟩
  · refine ((parse_stream_quality_claim ("plays mp3 audio".data)).2 ?_).1 (by decide)
    rintro ⟨n, hn⟩
    have hs := bpsAt_isSome _ n hn
    rw [show searchBps ("plays mp3 audio".data) = none from by decide] at hs
    exact absurd hs (by decide)

/-!  # Pair counting (C6)  -/

theorem pairAt_eq_open (lines : List (List Char)) (j : Nat) :
    pairAt lines j = pairAtOpen false lines j := by
  unfold pairAt pairAtOpen
  simp

theorem pairAtOpen_zero (b : Bool) (lines : List (List Char)) :
    pairAtOpen b lines 0 = (isUrlLine (lines.getD 0 []) && b) := by
  unfold pairAtOpen
  simp [List.range_zero]

theorem pairAtOpen_succ (b : Bool) (l : List Char) (ls : List (List Char)) (j : Nat) :
    pairAtOpen b (l :: ls) (j + 1) = pairAtOpen (isMetaLine l || (b && isOtherLine l)) ls j := by
  unfold pairAtOpen
  rw [List.getD_cons_succ, List.range_succ_eq_map]
  simp only [List.any_cons, List.all_cons, List.any_map, List.all_map, Function.comp_def,
    List.getD_cons_zero, List.getD_cons_succ, List.drop_succ_cons, List.drop_zero,
    ← List.map_drop, Nat.zero_add]
  generalize isUrlLine (ls.getD j []) = U
  generalize isMetaLine l = M
  generalize isOtherLine l = O
  generalize (List.range j).all (fun k => isOtherLine (ls.getD k [])) = S
  generalize (List.range j).any (fun i => isMetaLine (ls.getD i []) &&
      ((List.range j).drop (i + 1)).all (fun k => isOtherLine (ls.getD k []))) = A
  cases U <;> cases M <;> cases O <;> cases S <;> cases A <;> cases b <;> rfl

theorem specPairCountOpen_cons (b : Bool) (l : List Char) (ls : List (List Char)) :
    specPairCountOpen b (l :: ls)
      = (if isUrlLine l && b then 1 else 0)
        + specPairCountOpen (isMetaLine l || (b && isOtherLine l)) ls := by
  unfold specPairCountOpen
  rw [List.length_cons, List.range_succ_eq_map, List.countP_cons, List.countP_map]
  have h0 : pairAtOpen b (l :: ls) 0 = (isUrlLine l && b) := by
    rw [pairAtOpen_zero]
    rfl
  have hsucc : (pairAtOpen b (l :: ls) ∘ Nat.succ)
      = pairAtOpen (isMetaLine l || (b && isOtherLine l)) ls := by
    funext j
    exact pairAtOpen_succ b l ls j
  rw [h0, hsucc]
  cases hub : isUrlLine l && b <;> simp [Nat.add_comm]

theorem specPairCountOpen_eq_auxCount :
    ∀ (ls : List (List Char)) (b : Bool), specPairCountOpen b ls = auxCount b ls := by
  intro ls
  induction ls with
  | nil => intro b; rfl
  | cons l ls ih =>
    intro b
    rw [specPairCountOpen_cons, auxCount, ih]

theorem specPairCount_eq_open (lines : List (List Char)) :
    specPairCount lines = specPairCountOpen false lines := by
  unfold specPairCount specPairCountOpen
  apply List.countP_congr
  intro j _
  rw [pairAt_eq_open lines j]

theorem m3u_fold_length :
    ∀ (lines : List (List Char)) (acc : Option Station × List Station),
      ((lines.foldl m3uStep acc).2).length = acc.2.length + auxCount acc.1.isSome lines := by
  intro lines
  induction lines with
  | nil => intro acc; simp [auxCount]
  | cons l ls ih =>
    intro acc
    rw [List.foldl_cons, ih (m3uStep acc l), auxCount]
    cases hs : listStartsWith (stripList l) extinfMarker with
    | true =>
      have hurl : isUrlLine l = false := startsWith_marker_not_url _ hs
      cases hc : (stripList l).any (fun c => c == ',') with
      | true =>
        have hstep : m3uStep acc l
            = (some (mkStation ((stripList l).takeWhile (fun c => c != ','))
                (((stripList l).dropWhile (fun c => c != ',')).drop 1)), acc.2) := by
          apply m3uStep_meta _ _ _ _ hs
          unfold splitFirstComma
          rw [if_pos hc]
        have hmeta : isMetaLine l = true := by simp [isMetaLine, hs, hc]
        rw [hstep]
        simp [hurl, hmeta]
      | false =>
        have hmeta : isMetaLine l = false := by simp [isMetaLine, hc]
        have hother : isOtherLine l = true := by simp [isOtherLine, hmeta, hurl]
        have hstep : m3uStep acc l = acc := by
          apply m3uStep_meta_nocomma _ _ hs
          unfold splitFirstComma
          rw [if_neg (by simp [hc])]
        rw [hstep]
        simp [hmeta, hurl, hother]
    | false =>
      have hmeta : isMetaLine l = false := by simp [isMetaLine, hs]
      cases hu : isUrlStripped (stripList l) with
      | true =>
        have hurl : isUrlLine l = true := hu
        have hother : isOtherLine l = false := by simp [isOtherLine, hurl]
        rcases acc with ⟨a1, out⟩
        cases a1 with
        | some cur =>
          rw [m3uStep_url_open cur out l hu]
          simp [hurl, hmeta, hother]
          omega
        | none =>
          rw [m3uStep_url_closed out l hu]
          simp [hurl, hmeta, hother]
      | false =>
        have hurl : isUrlLine l = false := hu
        have hother : isOtherLine l = true := by simp [isOtherLine, hurl, hmeta]
        rw [m3uStep_other acc l hs hu]
        simp [hurl, hmeta, hother]

/-- C6: the playlist parser emits exactly one record per metadata-line/URL-line
pair appearing in that order with no intervening non-ignored line; a metadata
line never followed by a URL line contributes nothing.  A metadata line is a
line beginning with the marker and carrying the comma separating the attribute
segment from the name segment. -/
theorem parse_m3u_pair_count_claim (lines : List (List Char)) :
    (parse_m3u lines).length = specPairCount lines := by
  unfold parse_m3u
  rw [m3u_fold_length lines (none, [])]
  rw [specPairCount_eq_open, specPairCountOpen_eq_auxCount]
  simp
